import Mathlib

/- Verification of the file selection and aggregation engine of
   project-compiler.py: gitignore-style pattern matching, the directory walk
   with its exclusion filters, auxiliary docker file collection, tree
   rendering and output serialization.  Paths are modelled as strings with a
   POSIX separator; the filesystem is an explicit tree value.  String
   primitives are implemented structurally over the character list so that
   every definition evaluates inside the kernel. -/

/-- Split a character list at every occurrence of the separator character;
the accumulator holds the current segment reversed.  This is
str.split(sep) for a one-character separator: it never drops segments, and
the empty string yields one empty segment. -/
def splitOnCharAux (sep : Char) : List Char → List Char → List String
  | [], acc => [⟨acc.reverse⟩]
  | c :: cs, acc =>
      if c == sep then ⟨acc.reverse⟩ :: splitOnCharAux sep cs []
      else splitOnCharAux sep cs (c :: acc)

/-- str.split for a one-character separator. -/
def splitOnChar (sep : Char) (s : String) : List String :=
  splitOnCharAux sep s.data []

/-- Split a path string on the POSIX separator. -/
def splitPath (s : String) : List String :=
  splitOnChar '/' s

/-- Whether the string starts with the given character. -/
def startsWithChar (c : Char) (s : String) : Bool :=
  match s.data with
  | [] => false
  | d :: _ => d == c

/-- Whether the string ends with the given character. -/
def endsWithChar (c : Char) (s : String) : Bool :=
  match s.data.getLast? with
  | some d => d == c
  | none => false

/-- str.endswith(suffix). -/
def strEndsWith (s suffixStr : String) : Bool :=
  suffixStr.data.reverse.isPrefixOf s.data.reverse

/-- Drop the first n characters of a string. -/
def strDrop (s : String) (n : Nat) : String :=
  ⟨s.data.drop n⟩

/-- Drop the final character of a string. -/
def strDropLast (s : String) : String :=
  ⟨s.data.dropLast⟩

/-- The Python substring test needle in hay, for a nonempty needle. -/
def containsSub (needle hay : String) : Bool :=
  listContainsAux needle.data hay.data
where
  listContainsAux (nd : List Char) : List Char → Bool
    | [] => nd.isEmpty
    | c :: cs => nd.isPrefixOf (c :: cs) || listContainsAux nd cs

/-- Join strings with a newline between them: the str.join call of the tree
output. -/
def joinLines : List String → String
  | [] => ""
  | [s] => s
  | s :: rest => s ++ "\n" ++ joinLines rest

/-- One parsed gitignore rule: whether it is a negation (leading exclamation
mark) and its pattern text.  Models one pathspec gitwildmatch pattern. -/
structure GitRule where
  negated : Bool
  pattern : String
deriving DecidableEq

/-- Fuel-indexed glob matcher for a single path segment: a star matches any
run of characters within the segment, a question mark matches one character,
every other character matches itself.  The fuel argument makes the recursion
structural so that the definition reduces inside the kernel; each call
shrinks the pattern or the segment, so fuel larger than their combined
length is always sufficient. -/
def globMatchF : Nat → List Char → List Char → Bool
  | 0, _, _ => false
  | _ + 1, [], [] => true
  | _ + 1, [], _ :: _ => false
  | fuel + 1, '*' :: ps, [] => globMatchF fuel ps []
  | fuel + 1, '*' :: ps, c :: cs =>
      globMatchF fuel ps (c :: cs) || globMatchF fuel ('*' :: ps) cs
  | fuel + 1, '?' :: ps, _ :: cs => globMatchF fuel ps cs
  | _ + 1, '?' :: _, [] => false
  | fuel + 1, p :: ps, c :: cs => (p == c) && globMatchF fuel ps cs
  | _ + 1, _ :: _, [] => false

/-- Glob match of a pattern segment against one path segment. -/
def globSeg (pat seg : String) : Bool :=
  globMatchF (pat.data.length + seg.data.length + 1) pat.data seg.data

/-- Anchored match: the pattern segments must match an initial run of the
path segments; a match on a proper prefix also matches everything below the
matched directory.  When the pattern is directory-only, the path must lie
strictly below it. -/
def gitAnchoredMatch : List String → List String → Bool → Bool
  | [], [], dirOnly => !dirOnly
  | [], _ :: _, _ => true
  | _ :: _, [], _ => false
  | p :: ps, b :: bs, dirOnly => globSeg p b && gitAnchoredMatch ps bs dirOnly

/-- Unanchored match: some path component matches the single pattern
segment; when the pattern is directory-only the matching component must not
be the final one. -/
def gitComponentMatch (pat : String) (dirOnly : Bool) : List String → Bool
  | [] => false
  | [s] => !dirOnly && globSeg pat s
  | s :: rest => globSeg pat s || gitComponentMatch pat dirOnly rest

/-- Match one gitwildmatch pattern against a relative path, following the
semantics of the pathspec library (the fragment without double-star): a
trailing slash restricts the pattern to directories, a pattern containing a
slash elsewhere is anchored at the root, an unanchored pattern matches any
path component, and matching a directory also matches everything below
it. -/
def gitMatch (pat path : String) : Bool :=
  let dirOnly := endsWithChar '/' pat
  let pat1 := if dirOnly then strDropLast pat else pat
  let anchored := (splitPath pat1).length != 1
  let pat2 := if startsWithChar '/' pat1 then strDrop pat1 1 else pat1
  if anchored then gitAnchoredMatch (splitPath pat2) (splitPath path) dirOnly
  else gitComponentMatch pat2 dirOnly (splitPath path)

/-- Match of one parsed rule against a relative path (ignoring negation). -/
def ruleMatches (r : GitRule) (path : String) : Bool :=
  gitMatch r.pattern path

/-- Evaluate a parsed PatternSpec on a relative path the way
pathspec.PathSpec.match_file does: rules are scanned in order and the last
matching rule decides; a matching negation rule re-includes the path. -/
def matchFile (rules : List GitRule) (path : String) : Bool :=
  rules.foldl (fun acc r => if ruleMatches r path then !r.negated else acc) false

/-- Parse one line of a gitignore file: blank lines and comment lines yield
no rule, a leading exclamation mark marks a negation. -/
def parseLine (line : String) : Option GitRule :=
  if line == "" || startsWithChar '#' line then none
  else if startsWithChar '!' line then
    if strDrop line 1 == "" then none else some ⟨true, strDrop line 1⟩
  else some ⟨false, line⟩

/-- Parse a gitignore file body into an ordered rule list, as
pathspec.PathSpec.from_lines with the gitwildmatch factory does. -/
def parseGitignore (text : String) : List GitRule :=
  (splitOnChar (Char.ofNat 10) text).filterMap parseLine

/-- A filesystem entry: a regular file with its text content, or a directory
with its children in enumeration order.  A directory with readable = false
models one whose entries can be neither listed nor stat-ed (for example
mode 000): os.walk silently skips it and os.path.exists is false below
it. -/
inductive FSEntry where
  | file (name : String) (content : String)
  | dir (name : String) (readable : Bool) (children : List FSEntry)

/-- The name of an entry. -/
def FSEntry.name : FSEntry → String
  | .file n _ => n
  | .dir n _ _ => n

/-- The root directory handed to compile_files: its path string, whether it
is readable, and its children in enumeration order. -/
structure FS where
  root : String
  readable : Bool
  children : List FSEntry

/-- os.path.join for the POSIX separator, for the joins performed by the
program (directory paths are nonempty and names are relative). -/
def pathJoin (a b : String) : String :=
  a ++ "/" ++ b

/-- os.path.relpath(path, base) for the calls the program makes: every
argument is either base itself or was produced by joining names under
base. -/
def relpathOf (base p : String) : String :=
  if p == base then "." else strDrop p (base.data.length + 1)

/-- os.path.basename for the root path. -/
def basename (p : String) : String :=
  ((splitPath p).getLast?).getD ""

/-- The regular-file names among a list of entries, in order: the filenames
component of one os.walk triple. -/
def fileNames (es : List FSEntry) : List String :=
  es.filterMap fun e =>
    match e with
    | .file n _ => some n
    | .dir _ _ _ => none

mutual
/-- The os.walk triples contributed by one entry, top-down: a readable
directory yields its own (path, filenames) triple followed by the triples of
its children in order; an unreadable directory yields nothing, matching the
default onerror behaviour of os.walk which silently swallows the listing
error; a file yields nothing. -/
def walkEntry (base : String) : FSEntry → List (String × List String)
  | .file _ _ => []
  | .dir n r cs =>
      if r then (pathJoin base n, fileNames cs) :: walkList (pathJoin base n) cs
      else []

/-- The os.walk triples of a list of sibling entries, in order. -/
def walkList (base : String) : List FSEntry → List (String × List String)
  | [] => []
  | e :: es => walkEntry base e ++ walkList base es
end

/-- os.walk(directory) over the modelled filesystem.  An unreadable root
yields no triples at all: the initial scandir fails and os.walk ignores the
error by default, so the generator is simply empty. -/
def walkFS (fs : FS) : List (String × List String) :=
  if fs.readable then (fs.root, fileNames fs.children) :: walkList fs.root fs.children
  else []

/-- load_gitignore: when the root is readable and holds a .gitignore entry,
read and parse it; a directory named .gitignore makes the open call raise,
which the outer handler of compile_files turns into an error return.  An
absent file, or an unreadable root (os.path.exists is false there), yields
no spec. -/
def load_gitignore (fs : FS) : Except String (Option (List GitRule)) :=
  if fs.readable then
    match fs.children.find? (fun e => e.name == ".gitignore") with
    | some (FSEntry.file _ content) => Except.ok (some (parseGitignore content))
    | some (FSEntry.dir _ _ _) =>
        Except.error ("[Errno 21] Is a directory: " ++ pathJoin fs.root ".gitignore")
    | none => Except.ok none
  else Except.ok none

/-- is_ignored(path, spec, directory): with a spec present, match the path
relative to the root; with no spec nothing is ignored. -/
def is_ignored (spec : Option (List GitRule)) (path rootDir : String) : Bool :=
  match spec with
  | some rules => matchFile rules (relpathOf rootDir path)
  | none => false

/-- The directory-level skip test of the walk loop: the triple is skipped
when the directory path contains one of the two hard-coded substrings or the
spec reports it ignored. -/
def skipTriple (spec : Option (List GitRule)) (rootDir dirPath : String) : Bool :=
  containsSub "charting_library" dirPath || containsSub "datafeed" dirPath ||
    is_ignored spec dirPath rootDir

/-- The hard lockfile-name exclusion of the file filter: exact filename
comparison against the two lockfile names. -/
def lockfileOK (file : String) : Bool :=
  file != "package-lock.json" && file != "yarn.lock"

/-- The per-file test of the walk loop: the full path contains neither
excluded substring and is not ignored, the filename is not a lockfile, and
the filename ends with a dot followed by one of the configured
extensions. -/
def fileKeep (spec : Option (List GitRule)) (rootDir : String) (extensions : List String)
    (file filepath : String) : Bool :=
  (!(containsSub "charting_library" filepath || containsSub "datafeed" filepath) &&
      !is_ignored spec filepath rootDir) &&
    (lockfileOK file && extensions.any fun ext => strEndsWith file ("." ++ ext))

/-- The file paths contributed by one walk triple: nothing when the
directory is skipped, otherwise the joined paths of the files that pass the
per-file test, in order. -/
def walkContribution (spec : Option (List GitRule)) (rootDir : String)
    (extensions : List String) (rf : String × List String) : List String :=
  if skipTriple spec rootDir rf.1 then []
  else rf.2.filterMap fun file =>
    if fileKeep spec rootDir extensions file (pathJoin rf.1 file) then
      some (pathJoin rf.1 file)
    else none

/-- The first collection pass of compile_files: walk the tree and gather the
paths of all files that survive the directory-level and per-file filters. -/
def collectWalk (fs : FS) (spec : Option (List GitRule)) (extensions : List String) :
    List String :=
  (walkFS fs).flatMap (walkContribution spec fs.root extensions)

/-- os.path.exists(root/name): true when the root is readable and holds an
entry (file or directory) of that name. -/
def existsAtRoot (fs : FS) (n : String) : Bool :=
  fs.readable && fs.children.any fun e => e.name == n

/-- The docker collection loop: for each of the two fixed names in order,
append the joined root path when the entry exists and is not ignored.  The
extension filter and the substring exclusions are not consulted here. -/
def collectDocker (fs : FS) (spec : Option (List GitRule)) : List String :=
  ["Dockerfile", "docker-compose.yml"].filterMap fun n =>
    if existsAtRoot fs n && !is_ignored spec (pathJoin fs.root n) fs.root then
      some (pathJoin fs.root n)
    else none

/-- The complete ordered file list of one run: the walk-collected paths
followed by the docker paths. -/
def collectAll (fs : FS) (spec : Option (List GitRule)) (extensions : List String) :
    List String :=
  collectWalk fs spec extensions ++ collectDocker fs spec

/-- The nested-dictionary tree of generate_project_tree: each node is an
ordered association list from a name to either none (a file leaf) or a
subtree (a directory, its key carrying a trailing slash). -/
inductive PTree where
  | mk (children : List (String × Option PTree))

/-- The association list of a node. -/
def childrenOf : PTree → List (String × Option PTree)
  | PTree.mk cs => cs

/-- Python dictionary assignment d[k] = v on an ordered association list:
replace in place when the key is present, append otherwise. -/
def replaceKey : List (String × Option PTree) → String → Option PTree →
    List (String × Option PTree)
  | [], k, v => [(k, v)]
  | kv :: rest, k, v => if kv.1 == k then (k, v) :: rest else kv :: replaceKey rest k v

/-- Dictionary lookup d.get(k). -/
def lookupKey (l : List (String × Option PTree)) (k : String) : Option (Option PTree) :=
  match l.find? (fun kv => kv.1 == k) with
  | some kv => some kv.2
  | none => none

/-- Insert one relative path, split into segments, into the tree: every
segment but the last becomes a directory key (name plus trailing slash)
created on demand as setdefault does, and the last becomes a file leaf.
Directory keys and leaf keys never collide because names contain no
slash. -/
def insertPath : PTree → List String → PTree
  | t, [] => t
  | PTree.mk cs, [leaf] => PTree.mk (replaceKey cs leaf none)
  | PTree.mk cs, d :: rest =>
      let key := d ++ "/"
      let sub :=
        match lookupKey cs key with
        | some (some t) => t
        | _ => PTree.mk []
      PTree.mk (replaceKey cs key (some (insertPath sub rest)))

/-- generate_project_tree(files, root_dir): fold every collected path,
relative to the root, into the nested tree. -/
def generate_project_tree (files : List String) (root_dir : String) : PTree :=
  files.foldl (fun t path => insertPath t (splitPath (relpathOf root_dir path))) (PTree.mk [])

/-- Code-point comparison of strings, the order Python sorted uses on the
dictionary keys. -/
def strLe (a b : String) : Bool :=
  strLeAux a.data b.data
where
  strLeAux : List Char → List Char → Bool
    | [], _ => true
    | _ :: _, [] => false
    | a :: as, b :: bs => if a < b then true else if b < a then false else strLeAux as bs

/-- Stable insertion of one key-value pair into a list sorted by key. -/
def insSorted (x : String × Option PTree) :
    List (String × Option PTree) → List (String × Option PTree)
  | [] => [x]
  | y :: ys => if strLe x.1 y.1 then x :: y :: ys else y :: insSorted x ys

/-- sorted(d.items()): the association list ordered by key.  Keys within one
node are distinct, so sorting by key alone reproduces the Python tuple
sort. -/
def sortByKey (l : List (String × Option PTree)) : List (String × Option PTree) :=
  l.foldr insSorted []

mutual
/-- Sort every level of the tree by key.  format_tree sorts each level as it
descends; sorting all levels up front and then rendering without sorting
produces the same lines, because sorting one level does not touch the
subtrees. -/
def sortTree : PTree → PTree
  | PTree.mk cs => PTree.mk (sortByKey (sortChildren cs))

/-- Sort the subtrees hanging off one level. -/
def sortChildren : List (String × Option PTree) → List (String × Option PTree)
  | [] => []
  | (n, none) :: rest => (n, none) :: sortChildren rest
  | (n, some t) :: rest => (n, some (sortTree t)) :: sortChildren rest
end

mutual
/-- Render one already-sorted node: delegate to its children. -/
def renderTree (indent : String) : PTree → List String
  | PTree.mk cs => renderChildren indent cs

/-- The loop body of format_tree over one sorted level: each item gets a
connector chosen by whether it is the last sibling, and a directory with a
nonempty subtree is rendered below it with the extended indent. -/
def renderChildren (indent : String) : List (String × Option PTree) → List String
  | [] => []
  | (name, child) :: rest =>
      let lastFlag := rest.isEmpty
      let line := indent ++ (if lastFlag then "└── " else "├── ") ++ name
      let sub :=
        match child with
        | some t =>
            if (childrenOf t).isEmpty then []
            else renderTree (indent ++ (if lastFlag then "    " else "│   ")) t
        | none => []
      line :: (sub ++ renderChildren indent rest)
end

/-- format_tree(tree, indent): sort each level by key and render with the
box-drawing connectors. -/
def format_tree (tree : PTree) (indent : String) : List String :=
  renderTree indent (sortTree tree)

/-- The full tree text of a run: the base name of the root directory with a
trailing slash, then the formatted tree, joined by newlines with nothing
appended. -/
def treeOutput (files : List String) (directory : String) : String :=
  joinLines ((basename directory ++ "/") :: format_tree (generate_project_tree files directory) "")

/-- Resolve a collected path against the filesystem, as the read-back open
call does: strip the root prefix and descend segment by segment.  Descending
requires every intermediate directory to be readable; an unreadable root
resolves nothing (collected paths never reach this case then). -/
def resolveSegs : List FSEntry → List String → Option FSEntry
  | es, [n] => es.find? fun e => e.name == n
  | es, n :: rest =>
      match es.find? (fun e => e.name == n) with
      | some (FSEntry.dir _ r cs) => if r then resolveSegs cs rest else none
      | _ => none
  | _, [] => none

/-- Resolve an absolute collected path. -/
def resolvePath (fs : FS) (p : String) : Option FSEntry :=
  if fs.readable then resolveSegs fs.children (splitPath (relpathOf fs.root p))
  else none

/-- Python min on rationals (ties keep the first argument), written with the
executable comparison so it evaluates in the kernel. -/
def pyMin (a b : ℚ) : ℚ :=
  if Rat.blt b a then b else a

/-- Python max on naturals (ties keep the first argument). -/
def pyMax (a b : Nat) : Nat :=
  if a < b then b else a

/-- The separator line of 50 equal signs. -/
def eqSep : String :=
  ⟨List.replicate 50 (Char.ofNat 61)⟩

/-- The header block written before the entries. -/
def headerBlock (tree_output : String) : String :=
  "PROJECT TREE:\n" ++ tree_output ++ "\n\n" ++ eqSep ++ "\n\n"

/-- The write loop of the serializer.  For each path: write the path line
with its opening fence, open the file (a missing entry or a directory raises,
aborting the loop with the text written so far), write the content and the
closing fence, advance the float progress by one step and record the clamped
callback value.  Returns the full written text, the outcome, and the
sequence of callback values.  Progress arithmetic is modelled exactly over
the rationals. -/
def writeEntries (fs : FS) (step : ℚ) :
    List String → String → ℚ → List ℚ → String × Except String Unit × List ℚ
  | [], written, _, prog => (written, Except.ok (), prog)
  | fp :: rest, written, pr, prog =>
      let w1 := written ++ fp ++ "```\n"
      match resolvePath fs fp with
      | some (FSEntry.file _ content) =>
          writeEntries fs step rest (w1 ++ content ++ "\n```\n") (pr + step)
            (prog ++ [pyMin (pr + step) 100])
      | some (FSEntry.dir _ _ _) =>
          (w1, Except.error ("[Errno 21] Is a directory: " ++ fp), prog)
      | none =>
          (w1, Except.error ("[Errno 2] No such file or directory: " ++ fp), prog)

/-- The aggregate result of one run: the returned string, the content of the
output artifact when it was opened (partial on an aborted run), the collected
file list, and the values passed to the progress callback. -/
structure RunResult where
  ret : String
  output : Option String
  files : List String
  progress : List ℚ

/-- The tail of compile_files inside the try block: a completed write loop
returns the output path, an exception is caught and rendered as an error
string; either way the artifact holds what was written. -/
def finishRun (output_file : String) (all_files : List String) (written : String)
    (res : Except String Unit) (prog : List ℚ) : RunResult :=
  match res with
  | Except.ok _ => ⟨output_file, some written, all_files, prog⟩
  | Except.error e => ⟨"Error: " ++ e, some written, all_files, prog⟩

/-- compile_files(directory, extensions, output_file, progress_callback).
The callback is abstracted to the flag hasCb telling whether one was passed;
the values handed to it are returned in the progress field (empty when no
callback was given, since each call is guarded by the same test).  A run
whose gitignore load raises is caught before the output file is opened.
After a completed or aborted write loop, the zero-file case reports a single
100. -/
def compile_files (fs : FS) (extensions : List String) (output_file : String)
    (hasCb : Bool) : RunResult :=
  match load_gitignore fs with
  | Except.error e => ⟨"Error: " ++ e, none, [], []⟩
  | Except.ok spec =>
      let all_files := collectAll fs spec extensions
      let file_count := all_files.length
      let tree_output := treeOutput all_files fs.root
      let step : ℚ := 100 / (pyMax file_count 1 : ℕ)
      let res := writeEntries fs step all_files (headerBlock tree_output) 0 []
      let prog :=
        if hasCb then (if file_count == 0 then res.2.2 ++ [100] else res.2.2) else []
      finishRun output_file all_files res.1 res.2.1 prog

/-- A root directory that cannot be read, holding a file that would match
the extension filter if the walk could see it. -/
def fsC1 : FS := ⟨"r", false, [FSEntry.file "a.txt" "x"]⟩

/-- A root holding docker-compose.yml and one further yml file. -/
def fsC2 : FS := ⟨"r", true, [FSEntry.file "docker-compose.yml" "v", FSEntry.file "z.yml" "w"]⟩

/-- The ignore file igniting the descent counterexample: ignore build, then
re-include the subdirectory build/sub. -/
def gitTextC3 : String := "build\n!build/sub"

/-- A root with that ignore file and a file two levels below the ignored
directory. -/
def fsC3 : FS := ⟨"r", true,
  [FSEntry.file ".gitignore" gitTextC3,
   FSEntry.dir "build" true [FSEntry.dir "sub" true [FSEntry.file "f.txt" "hi"]]]⟩

/-- A root whose own path contains the vendor substring, holding a
Dockerfile. -/
def fsC4 : FS := ⟨"charting_library", true, [FSEntry.file "Dockerfile" "FROM x"]⟩

/-- A root with a single file inside a directory named build. -/
def fsC7 : FS := ⟨"r", true, [FSEntry.dir "build" true [FSEntry.file "keep.txt" "hi"]]⟩

/-- The spec ignoring build and re-including only the file below it. -/
def specC7 : List GitRule := parseGitignore "build\n!build/keep.txt"

/-- A root with a lockfile and an ordinary json file. -/
def fsC8 : FS := ⟨"r", true,
  [FSEntry.file "package-lock.json" "x", FSEntry.file "data.json" "y"]⟩

/-- A small readable root used to witness the hypotheses of the generic
theorems. -/
def fsWit : FS := ⟨"r", true, [FSEntry.file "a.txt" "x"]⟩

/-- Membership in the contribution of one walk triple: the triple must not
be skipped and the path must be the join of the triple directory with one of
its files passing the per-file test. -/
theorem mem_walkContribution {spec : Option (List GitRule)} {rootDir : String}
    {exts : List String} {rf : String × List String} {p : String} :
    p ∈ walkContribution spec rootDir exts rf ↔
      skipTriple spec rootDir rf.1 = false ∧
        ∃ f, f ∈ rf.2 ∧ fileKeep spec rootDir exts f (pathJoin rf.1 f) = true ∧
          p = pathJoin rf.1 f := by
  unfold walkContribution
  by_cases hs : skipTriple spec rootDir rf.1 = true
  · simp [hs]
  · have hs' : skipTriple spec rootDir rf.1 = false := by
      revert hs; cases skipTriple spec rootDir rf.1 <;> simp
    rw [if_neg hs]
    simp only [hs', true_and, List.mem_filterMap]
    refine Iff.intro ?_ ?_
    · rintro ⟨f, hf, hsome⟩
      by_cases hk : fileKeep spec rootDir exts f (pathJoin rf.1 f) = true
      · rw [if_pos hk] at hsome
        exact ⟨f, hf, hk, (Option.some.injEq _ _).mp hsome |>.symm⟩
      · rw [if_neg hk] at hsome
        exact absurd hsome (Option.noConfusion)
    · rintro ⟨f, hf, hk, rfl⟩
      exact ⟨f, hf, by rw [if_pos hk]⟩

/-- Membership in the walk-collected list: exactly the files of an unskipped
triple that pass the per-file test, at their joined paths. -/
theorem mem_collectWalk {fs : FS} {spec : Option (List GitRule)} {exts : List String}
    {p : String} :
    p ∈ collectWalk fs spec exts ↔
      ∃ r files f, (r, files) ∈ walkFS fs ∧ skipTriple spec fs.root r = false ∧
        f ∈ files ∧ fileKeep spec fs.root exts f (pathJoin r f) = true ∧
        p = pathJoin r f := by
  unfold collectWalk
  rw [List.mem_flatMap]
  refine Iff.intro ?_ ?_
  · rintro ⟨⟨r, files⟩, hrf, hp⟩
    rcases mem_walkContribution.mp hp with ⟨hskip, f, hf, hk, rfl⟩
    exact ⟨r, files, f, hrf, hskip, hf, hk, rfl⟩
  · rintro ⟨r, files, f, hrf, hskip, hf, hk, rfl⟩
    exact ⟨(r, files), hrf, mem_walkContribution.mpr ⟨hskip, f, hf, hk, rfl⟩⟩

/-- Folding the match-file step over rules none of which match leaves the
accumulator unchanged. -/
theorem foldl_noMatch (p : String) (l : List GitRule) (acc : Bool)
    (h : ∀ q ∈ l, ruleMatches q p = false) :
    l.foldl (fun a r => if ruleMatches r p then !r.negated else a) acc = acc := by
  induction l generalizing acc with
  | nil => rfl
  | cons q l ih =>
      rw [List.foldl_cons, if_neg (by simp [h q (by simp)])]
      exact ih acc fun r hr => h r (by simp [hr])

/-- Last-match-wins: when a negation rule matches the path and no later rule
matches it, the whole spec reports the path as not ignored. -/
theorem matchFile_last_neg (pre post : List GitRule) (r : GitRule) (p : String)
    (hm : ruleMatches r p = true) (hneg : r.negated = true)
    (hpost : ∀ q ∈ post, ruleMatches q p = false) :
    matchFile (pre ++ r :: post) p = false := by
  unfold matchFile
  rw [List.foldl_append, List.foldl_cons, if_pos hm, hneg]
  simpa using foldl_noMatch p post false hpost

/-- The returned string of a finished run is the output path or an error
string carrying the exception message. -/
theorem finishRun_ret_cases (o : String) (a : List String) (w : String)
    (r : Except String Unit) (p : List ℚ) :
    (finishRun o a w r p).ret = o ∨ ∃ msg, (finishRun o a w r p).ret = "Error: " ++ msg := by
  cases r with
  | ok u => exact Or.inl rfl
  | error e => exact Or.inr ⟨e, rfl⟩

/-- The returned string, artifact and file list of a finished run do not
depend on the recorded progress values. -/
theorem finishRun_indep (o : String) (a : List String) (w : String)
    (r : Except String Unit) (p q : List ℚ) :
    (finishRun o a w r p).ret = (finishRun o a w r q).ret ∧
      (finishRun o a w r p).output = (finishRun o a w r q).output ∧
      (finishRun o a w r p).files = (finishRun o a w r q).files := by
  cases r <;> exact ⟨rfl, rfl, rfl⟩

/-- The docker collection is an in-order selection from the fixed two-name
list. -/
theorem collectDocker_sublist (fs : FS) (spec : Option (List GitRule)) :
    (collectDocker fs spec).Sublist
      [pathJoin fs.root "Dockerfile", pathJoin fs.root "docker-compose.yml"] := by
  unfold collectDocker
  simp only [List.filterMap]
  by_cases h1 : (existsAtRoot fs "Dockerfile" &&
      !is_ignored spec (pathJoin fs.root "Dockerfile") fs.root) = true <;>
    by_cases h2 : (existsAtRoot fs "docker-compose.yml" &&
        !is_ignored spec (pathJoin fs.root "docker-compose.yml") fs.root) = true <;>
    simp [h1, h2]

/-- C1 counterexample: with an unreadable root the run does not fail with an
IOError and the output artifact is written: os.walk silently yields nothing,
the docker existence checks fail, and the run returns the output path after
writing a header-only artifact and reporting progress 100 once. -/
theorem unreadable_root_run_succeeds :
    (compile_files fsC1 ["txt"] "out.txt" true).ret = "out.txt" ∧
    (compile_files fsC1 ["txt"] "out.txt" true).output =
      some ("PROJECT TREE:\nr/\n\n" ++ eqSep ++ "\n\n") ∧
    (compile_files fsC1 ["txt"] "out.txt" true).progress = [100] := by decide

/-- C1 (corrected): for every configuration whose root directory cannot be
read, compile_files does not return an error: the walk enumerates nothing,
no files are collected, and the run succeeds, returning the output path and
writing a header-only artifact with an empty tree. -/
theorem unreadable_root_behavior (children : List FSEntry) (exts : List String)
    (out : String) (b : Bool) :
    (compile_files ⟨"r", false, children⟩ exts out b).ret = out ∧
    (compile_files ⟨"r", false, children⟩ exts out b).files = [] ∧
    (compile_files ⟨"r", false, children⟩ exts out b).output =
      some ("PROJECT TREE:\nr/\n\n" ++ eqSep ++ "\n\n") :=
  ⟨rfl, rfl, rfl⟩

/-- C2 counterexample: when docker-compose.yml also satisfies the extension
filter it is collected twice, once by the walk at position 0 and once by the
docker loop at the end, so it does not occupy only trailing positions. -/
theorem docker_nontrailing_occurrence :
    collectAll fsC2 none ["yml"] =
      ["r/docker-compose.yml", "r/z.yml", "r/docker-compose.yml"] ∧
    "r/docker-compose.yml" ∈ (collectAll fsC2 none ["yml"]).take 2 := by decide

/-- C2 (corrected): the docker entries that exist and are unignored always
form the trailing segment of the file list, in their fixed relative order;
but a docker file that also passes the extension filter additionally appears
among the walk-collected entries before that segment. -/
theorem docker_files_trailing (fs : FS) (spec : Option (List GitRule))
    (exts : List String) :
    collectAll fs spec exts = collectWalk fs spec exts ++ collectDocker fs spec ∧
      (collectDocker fs spec).Sublist
        [pathJoin fs.root "Dockerfile", pathJoin fs.root "docker-compose.yml"] :=
  ⟨rfl, collectDocker_sublist fs spec⟩

/-- C3 counterexample: r/build is skipped (its relative path matches the
ignore rule build), yet the walk still descends below it, and the file
r/build/sub/f.txt, re-included by the negation rule, appears in the final
list of the full pipeline. -/
theorem skipped_dir_descendant_included :
    load_gitignore fsC3 = Except.ok (some (parseGitignore gitTextC3)) ∧
    skipTriple (some (parseGitignore gitTextC3)) "r" "r/build" = true ∧
    ("r/build", []) ∈ walkFS fsC3 ∧
    "r/build/sub/f.txt" ∈ (compile_files fsC3 ["txt"] "out" false).files :=
  ⟨rfl, by decide, by decide, by decide⟩

/-- C3 (corrected): the loop body uses continue, which does not prune
os.walk, so a skipped directory only loses its own direct files; the walk
still descends, and a path appears in the walk-collected list exactly when
its own triple is unskipped and the file passes the per-file test. -/
theorem walk_membership_characterization (fs : FS) (spec : Option (List GitRule))
    (exts : List String) (p : String) :
    p ∈ collectWalk fs spec exts ↔
      ∃ r files f, (r, files) ∈ walkFS fs ∧ skipTriple spec fs.root r = false ∧
        f ∈ files ∧ fileKeep spec fs.root exts f (pathJoin r f) = true ∧
        p = pathJoin r f :=
  mem_collectWalk

/-- C4 counterexample: the docker loop applies no substring exclusion, so
when the root path itself contains the vendor substring, the collected
Dockerfile path contains it too and is present in the final list. -/
theorem vendor_substring_file_collected :
    containsSub "charting_library" "charting_library/Dockerfile" = true ∧
    "charting_library/Dockerfile" ∈ (compile_files fsC4 [] "out" false).files := by decide

/-- C4 (corrected): every walk-collected path is free of the vendor
substring; only the auxiliary docker entries escape the substring check. -/
theorem walk_entries_no_vendor (fs : FS) (spec : Option (List GitRule))
    (exts : List String) (p : String) (hp : p ∈ collectWalk fs spec exts) :
    containsSub "charting_library" p = false := by
  rcases mem_collectWalk.mp hp with ⟨r, files, f, -, -, -, hk, rfl⟩
  unfold fileKeep at hk
  simp only [Bool.and_eq_true, Bool.not_eq_true'] at hk
  rcases hk with ⟨⟨hsub, -⟩, -⟩
  cases hc : containsSub "charting_library" (pathJoin r f) with
  | false => rfl
  | true => rw [hc] at hsub; simp at hsub

/-- Witness that the hypotheses of walk_entries_no_vendor are satisfiable. -/
theorem walk_entries_no_vendor_w :
    ("r/a.txt" ∈ collectWalk fsWit none ["txt"]) ∧
      containsSub "charting_library" "r/a.txt" = false :=
  ⟨by decide, walk_entries_no_vendor fsWit none ["txt"] "r/a.txt" (by decide)⟩

/-- C6 (confirmed): the tree renderer merges directories and files into one
alphabetically sorted list at each level, suffixes directory names with the
separator, and for the given entry set under root proj produces exactly the
five expected lines joined by newlines with nothing appended; the insertion
order of the entries does not matter. -/
theorem tree_render_example :
    treeOutput ["proj/a/b.txt", "proj/a/c.txt", "proj/d.txt"] "proj" =
      "proj/\n├── a/\n│   ├── b.txt\n│   └── c.txt\n└── d.txt" ∧
    treeOutput ["proj/d.txt", "proj/a/c.txt", "proj/a/b.txt"] "proj" =
      "proj/\n├── a/\n│   ├── b.txt\n│   └── c.txt\n└── d.txt" := by decide

/-- C7 counterexample: the spec first ignores build and then re-includes
build/keep.txt by a negation rule; the matcher reports the file as not
ignored and it passes the substring, lockfile and extension checks, yet it
is absent from the final list because the walk iteration of its parent
directory is skipped. -/
theorem negation_blocked_by_skipped_dir :
    specC7 = [⟨false, "build"⟩, ⟨true, "build/keep.txt"⟩] ∧
    ruleMatches ⟨false, "build"⟩ "build/keep.txt" = true ∧
    ruleMatches ⟨true, "build/keep.txt"⟩ "build/keep.txt" = true ∧
    matchFile specC7 "build/keep.txt" = false ∧
    fileKeep (some specC7) "r" ["txt"] "keep.txt" "r/build/keep.txt" = true ∧
    "r/build/keep.txt" ∉ collectAll fsC7 (some specC7) ["txt"] := by decide

/-- C7 (corrected): a file matched by a later negation rule after an earlier
broad ignore rule is included, provided it passes the substring, lockfile
and extension checks AND the triple of its containing directory is not
itself skipped by the spec. -/
theorem negation_reinclusion (pre post : List GitRule) (pat : String)
    (hneg : ruleMatches ⟨true, pat⟩ "build/keep.txt" = true)
    (hbroad : ∃ q ∈ pre, q.negated = false ∧ ruleMatches q "build/keep.txt" = true)
    (hlast : ∀ q ∈ post, ruleMatches q "build/keep.txt" = false)
    (hdir : matchFile (pre ++ ⟨true, pat⟩ :: post) "build" = false) :
    "r/build/keep.txt" ∈ collectAll fsC7 (some (pre ++ ⟨true, pat⟩ :: post)) ["txt"] := by
  have hfile : matchFile (pre ++ ⟨true, pat⟩ :: post) "build/keep.txt" = false :=
    matchFile_last_neg pre post ⟨true, pat⟩ "build/keep.txt" hneg rfl hlast
  apply List.mem_append_left
  rw [mem_collectWalk]
  refine ⟨"r/build", ["keep.txt"], "keep.txt", by decide, ?_, by simp, ?_, by decide⟩
  · have hrel : relpathOf fsC7.root "r/build" = "build" := by decide
    have hc1 : containsSub "charting_library" "r/build" = false := by decide
    have hc2 : containsSub "datafeed" "r/build" = false := by decide
    simp [skipTriple, is_ignored, hrel, hc1, hc2, hdir]
  · show fileKeep _ _ _ "keep.txt" "r/build/keep.txt" = true
    have hrel : relpathOf fsC7.root "r/build/keep.txt" = "build/keep.txt" := by decide
    have hc1 : containsSub "charting_library" "r/build/keep.txt" = false := by decide
    have hc2 : containsSub "datafeed" "r/build/keep.txt" = false := by decide
    have hext : (["txt"].any fun ext => strEndsWith "keep.txt" ("." ++ ext)) = true := by decide
    have hlock : lockfileOK "keep.txt" = true := by decide
    simp [fileKeep, is_ignored, hrel, hc1, hc2, hfile, hlock, hext]

/-- Witness that the hypotheses of negation_reinclusion are satisfiable: the
broad rule star-dot-txt followed by the negation of keep.txt includes
r/build/keep.txt. -/
theorem negation_reinclusion_w :
    "r/build/keep.txt" ∈
      collectAll fsC7 (some ([⟨false, "*.txt"⟩] ++ ⟨true, "keep.txt"⟩ :: [])) ["txt"] :=
  negation_reinclusion [⟨false, "*.txt"⟩] [] "keep.txt" (by decide)
    ⟨⟨false, "*.txt"⟩, by simp, rfl, by decide⟩ (fun q hq => by simp at hq) (by decide)

/-- C8 (confirmed): the lockfile exclusion is an exact filename comparison:
package-lock.json is excluded even with extension json selected, an ordinary
json file is kept, and a name merely containing the lockfile name passes the
lockfile test. -/
theorem lockfile_exact_match :
    "r/package-lock.json" ∉ collectAll fsC8 none ["json"] ∧
    "r/data.json" ∈ collectAll fsC8 none ["json"] ∧
    lockfileOK "package-lock.json" = false ∧
    lockfileOK "mypackage-lock.json.bak" = true := by decide

/-- C9 (confirmed): over the modelled filesystem (fixed contents and
enumeration order) the run is deterministic and its returned string,
artifact and file list do not depend on whether a progress callback was
supplied. -/
theorem run_deterministic (fs : FS) (exts : List String) (out : String) (b c : Bool) :
    (compile_files fs exts out b).ret = (compile_files fs exts out c).ret ∧
      (compile_files fs exts out b).output = (compile_files fs exts out c).output ∧
      (compile_files fs exts out b).files = (compile_files fs exts out c).files := by
  unfold compile_files
  cases load_gitignore fs with
  | error e => exact ⟨rfl, rfl, rfl⟩
  | ok spec => exact finishRun_indep _ _ _ _ _ _

/-- C10 (confirmed): compile_files never propagates an exception: it returns
the output path on success, and any failure is caught and rendered as a
string beginning with the error marker followed by the message. -/
theorem no_exception_escape (fs : FS) (exts : List String) (out : String) (b : Bool) :
    (compile_files fs exts out b).ret = out ∨
      ∃ msg, (compile_files fs exts out b).ret = "Error: " ++ msg := by
  unfold compile_files
  cases load_gitignore fs with
  | error e => exact Or.inr ⟨e, rfl⟩
  | ok spec => exact finishRun_ret_cases _ _ _ _ _
